import Mathlib

/-!
Verification of the Pyro/Thor scan orchestrator and its embedded redb-backed
YARA rule / threat-intel store (src/executor.rs, src/scanner.rs,
src/hooks/yara_rules_redb.rs), as a shallow embedding in Lean.

Modelling conventions:
* IEEE f64 values are modelled as Option ℚ: some q is an ordinary finite
  value, none is NaN.  The IEEE comparisons used by the source (>= and
  partial_cmp) are false resp. undefined whenever either side is NaN.
* chrono DateTime instants are modelled as ℤ (seconds); Duration::days(d)
  is d * 86400 seconds.
* A redb table is keyed by a string and iterates its entries in ascending
  key order (redb is a B-tree store); a table snapshot is therefore a list
  of entries that is strictly sorted by key.  store_yara_rule and
  store_threat_intel always use the record id as the key.
* bincode serializes a struct as the plain sequence of its field values
  (no field names); the serialized payload of a rule record is modelled as
  the list of its field values in declaration order.
* Filesystem and process effects are passed in explicitly: each outcome of
  an external call (directory listing, file read, HTTP download, child
  process run) is an input of the modelled function, and the writes the
  function performs are part of its result.
-/

/-- IEEE double: some q is a finite value, none is NaN. -/
abbrev FloatVal := Option ℚ

/-- IEEE x >= y as used by Rust f64 comparison: false whenever either side
is NaN. -/
def fge (x y : FloatVal) : Bool :=
  match x, y with
  | some a, some b => decide (b ≤ a)
  | _, _ => false

/-- ThreatIntelIndicator record (yara_rules_redb.rs, lines 44-57). -/
structure ThreatIntelIndicator where
  id : String
  indicator_type : String
  value : String
  confidence : FloatVal
  threat_score : FloatVal
  first_seen : ℤ
  last_seen : ℤ
  source_feeds : List String
  associated_campaigns : List String
  mitre_mapping : List String
  quantum_resistant : Bool
deriving DecidableEq

/-- YaraRule record (yara_rules_redb.rs, lines 12-30). -/
structure YaraRule where
  id : String
  name : String
  content : String
  author : String
  description : String
  tags : List String
  severity : String
  created_at : ℤ
  updated_at : ℤ
  version : String
  hash : String
  source : String
  mitre_tactics : List String
  mitre_techniques : List String
  threat_actors : List String
  malware_families : List String
deriving DecidableEq

/-- One field value of a bincode-serialized record: bincode writes a struct
as the sequence of its field values, so a payload is a list of these. -/
inductive BinField where
  | str (s : String)
  | strList (l : List String)
  | time (t : ℤ)
deriving DecidableEq

/-- bincode::serialize of a YaraRule: its field values in declaration
order (yara_rules_redb.rs, line 102). -/
def serializeYaraRule (r : YaraRule) : List BinField :=
  [.str r.id, .str r.name, .str r.content, .str r.author, .str r.description,
   .strList r.tags, .str r.severity, .time r.created_at, .time r.updated_at,
   .str r.version, .str r.hash, .str r.source, .strList r.mitre_tactics,
   .strList r.mitre_techniques, .strList r.threat_actors,
   .strList r.malware_families]

/-- bincode::deserialize of a YaraRule payload; fails (DataError) unless the
payload is exactly the field sequence of a rule record
(yara_rules_redb.rs, line 133). -/
def deserializeYaraRule : List BinField → Option YaraRule
  | [.str id, .str name, .str content, .str author, .str description,
     .strList tags, .str severity, .time created_at, .time updated_at,
     .str version, .str hash, .str source, .strList mitre_tactics,
     .strList mitre_techniques, .strList threat_actors,
     .strList malware_families] =>
    some ⟨id, name, content, author, description, tags, severity, created_at,
          updated_at, version, hash, source, mitre_tactics, mitre_techniques,
          threat_actors, malware_families⟩
  | _ => none

/-- A redb table snapshot: entries in ascending key order.  tableInsert is
redb table.insert: upsert of one key, keeping the order invariant. -/
def tableInsert {α : Type} : List (String × α) → String → α → List (String × α)
  | [], k, v => [(k, v)]
  | (k', v') :: t, k, v =>
    if k < k' then (k, v) :: (k', v') :: t
    else if k = k' then (k, v) :: t
    else (k', v') :: tableInsert t k v

/-- redb table.get: lookup of one key. -/
def tableGet {α : Type} : List (String × α) → String → Option α
  | [], _ => none
  | (k', v') :: t, k => if k = k' then some v' else tableGet t k

/-- The yara_rules table: serialized rule payloads keyed by rule id. -/
abbrev RulesTable := List (String × List BinField)

/-- Store-level failure of a single call (spec taxonomy: DataError is a
deserialization failure, fatal to the offending call only). -/
inductive StoreError where
  | dataError
deriving DecidableEq

/-- store_yara_rule (yara_rules_redb.rs, lines 101-121): serialize the rule
and upsert it under its id in one write transaction. -/
def store_yara_rule (t : RulesTable) (r : YaraRule) : RulesTable :=
  tableInsert t r.id (serializeYaraRule r)

/-- get_yara_rule (yara_rules_redb.rs, lines 123-140): look the id up and
deserialize the payload; a payload that does not decode is a DataError. -/
def get_yara_rule (t : RulesTable) (rule_id : String) :
    Except StoreError (Option YaraRule) :=
  match tableGet t rule_id with
  | none => .ok none
  | some payload =>
    match deserializeYaraRule payload with
    | none => .error .dataError
    | some r => .ok (some r)

theorem tableGet_tableInsert_self {α : Type} (t : List (String × α))
    (k : String) (v : α) : tableGet (tableInsert t k v) k = some v := by
  induction t with
  | nil => simp [tableInsert, tableGet]
  | cons p t ih =>
    obtain ⟨k', v'⟩ := p
    by_cases h1 : k < k'
    · simp [tableInsert, h1, tableGet]
    · by_cases h2 : k = k'
      · simp [tableInsert, h1, h2, tableGet]
      · simp [tableInsert, h1, h2, tableGet, ih]

theorem deserialize_serializeYaraRule (r : YaraRule) :
    deserializeYaraRule (serializeYaraRule r) = some r := by
  cases r
  rfl

/-- C7: for every valid Rule r, putRule(r) followed by getRule(r.id) on the
same store yields a value equal to r: serialization followed by
deserialization round-trips the rule record. -/
theorem put_then_get_roundtrip (t : RulesTable) (r : YaraRule) :
    get_yara_rule (store_yara_rule t r) r.id = Except.ok (some r) := by
  unfold get_yara_rule store_yara_rule
  rw [tableGet_tableInsert_self]
  simp [deserialize_serializeYaraRule]

/-- The intel table snapshot as the decoded records, in ascending id order
(store_threat_intel keys each record by its id, so key order is id order).
The order invariant is the hypothesis idSorted below. -/
def idSorted (store : List ThreatIntelIndicator) : Prop :=
  store.Pairwise (fun a b => a.id < b.id)

/-- One insertion step of a stable sort into a confidence-descending list:
the new element goes after every already placed element whose confidence is
at least its own.  Rust slice sort_by is stable, and all stable sorts for
one total preorder agree, so this insertion sort models the sort_by call of
get_high_confidence_indicators (yara_rules_redb.rs, line 267). -/
def orderedInsertDesc (a : ThreatIntelIndicator) :
    List ThreatIntelIndicator → List ThreatIntelIndicator
  | [] => [a]
  | b :: l =>
    if fge a.confidence b.confidence then a :: b :: l
    else b :: orderedInsertDesc a l

/-- Stable sort by confidence descending (earliest elements inserted last,
each placed in front of the already sorted later elements). -/
def sortByConfidenceDesc (l : List ThreatIntelIndicator) :
    List ThreatIntelIndicator :=
  l.foldr orderedInsertDesc []

/-- Whether some element of the list has NaN confidence. -/
def hasNaNConfidence (l : List ThreatIntelIndicator) : Bool :=
  l.any (fun i => i.confidence.isNone)

/-- A runtime fault: the comparator of the sort_by call is
partial_cmp(..).unwrap(), which panics when it is handed a NaN. -/
inductive SortFault where
  | panic
deriving DecidableEq

/-- get_high_confidence_indicators (yara_rules_redb.rs, lines 247-270):
keep the indicators whose confidence is >= min_confidence (IEEE >=: false
on NaN), then sort them by confidence descending with the stable sort_by;
its unwrap comparator panics whenever the sort compares a NaN element,
which happens exactly when the filtered list has at least two elements and
one of them carries NaN. -/
def get_high_confidence_indicators (store : List ThreatIntelIndicator)
    (min_confidence : FloatVal) :
    Except SortFault (List ThreatIntelIndicator) :=
  let indicators := store.filter (fun i => fge i.confidence min_confidence)
  if hasNaNConfidence indicators && decide (2 ≤ indicators.length) then
    .error .panic
  else
    .ok (sortByConfidenceDesc indicators)

/-- The ranking order claimed by the spec: strictly greater confidence
first, ties broken by ascending id; NaN confidences admit no rank. -/
def confidenceRank (a b : ThreatIntelIndicator) : Prop :=
  match a.confidence, b.confidence with
  | some ca, some cb => cb < ca ∨ (ca = cb ∧ a.id < b.id)
  | _, _ => False

theorem mem_orderedInsertDesc {a x : ThreatIntelIndicator}
    {l : List ThreatIntelIndicator} :
    x ∈ orderedInsertDesc a l ↔ x = a ∨ x ∈ l := by
  induction l with
  | nil => simp [orderedInsertDesc]
  | cons b t ih =>
    by_cases h : fge a.confidence b.confidence
    · simp only [orderedInsertDesc, if_pos h, List.mem_cons]
    · simp only [orderedInsertDesc, if_neg h, List.mem_cons, ih]
      tauto

theorem orderedInsertDesc_perm (a : ThreatIntelIndicator)
    (l : List ThreatIntelIndicator) : (orderedInsertDesc a l).Perm (a :: l) := by
  induction l with
  | nil => simp [orderedInsertDesc]
  | cons b t ih =>
    by_cases h : fge a.confidence b.confidence
    · simp [orderedInsertDesc, h]
    · simp only [orderedInsertDesc, if_neg h]
      exact (ih.cons b).trans (List.Perm.swap a b t)

theorem sortByConfidenceDesc_perm (l : List ThreatIntelIndicator) :
    (sortByConfidenceDesc l).Perm l := by
  induction l with
  | nil => simp [sortByConfidenceDesc]
  | cons a t ih =>
    have : sortByConfidenceDesc (a :: t) = orderedInsertDesc a (sortByConfidenceDesc t) := rfl
    rw [this]
    exact (orderedInsertDesc_perm a (sortByConfidenceDesc t)).trans (ih.cons a)

theorem orderedInsertDesc_pairwise {a : ThreatIntelIndicator}
    {l : List ThreatIntelIndicator}
    (ha : a.confidence ≠ none) (hl : ∀ b ∈ l, b.confidence ≠ none)
    (hid : ∀ b ∈ l, a.id < b.id) (hp : l.Pairwise confidenceRank) :
    (orderedInsertDesc a l).Pairwise confidenceRank := by
  induction l with
  | nil => simp [orderedInsertDesc]
  | cons b t ih =>
    obtain ⟨ca, hca⟩ : ∃ ca, a.confidence = some ca := by
      cases hac : a.confidence with
      | none => exact absurd hac ha
      | some ca => exact ⟨ca, rfl⟩
    obtain ⟨cb, hcb⟩ : ∃ cb, b.confidence = some cb := by
      cases hbc : b.confidence with
      | none => exact absurd hbc (hl b (List.mem_cons_self b t))
      | some cb => exact ⟨cb, rfl⟩
    rw [List.pairwise_cons] at hp
    by_cases h : fge a.confidence b.confidence
    · have hba : cb ≤ ca := by
        simpa [fge, hca, hcb] using h
      rw [orderedInsertDesc, if_pos h, List.pairwise_cons]
      refine ⟨?_, List.pairwise_cons.mpr hp⟩
      intro x hx
      rcases List.mem_cons.mp hx with rfl | hxt
      · show confidenceRank a x
        rcases lt_or_eq_of_le hba with hlt | heq
        · simp only [confidenceRank, hca, hcb]
          exact Or.inl hlt
        · simp only [confidenceRank, hca, hcb]
          exact Or.inr ⟨heq.symm, hid x (List.mem_cons_self x t)⟩
      · obtain ⟨cx, hcx⟩ : ∃ cx, x.confidence = some cx := by
          cases hxc : x.confidence with
          | none => exact absurd hxc (hl x (List.mem_cons_of_mem b hxt))
          | some cx => exact ⟨cx, rfl⟩
        have hbx := hp.1 x hxt
        simp only [confidenceRank, hcb, hcx] at hbx
        simp only [confidenceRank, hca, hcx]
        rcases hbx with hlt | ⟨heq, _⟩
        · exact Or.inl (lt_of_lt_of_le hlt hba)
        · rcases lt_or_eq_of_le hba with hlt2 | heq2
          · exact Or.inl (heq ▸ hlt2)
          · exact Or.inr ⟨heq2.symm.trans heq, hid x (List.mem_cons_of_mem b hxt)⟩
    · have hab : ca < cb := by
        have : ¬ (cb ≤ ca) := by
          intro hc
          exact h (by simp [fge, hca, hcb, hc])
        exact lt_of_not_le this
      rw [orderedInsertDesc, if_neg h, List.pairwise_cons]
      constructor
      · intro x hx
        rcases mem_orderedInsertDesc.mp hx with rfl | hxt
        · simp only [confidenceRank, hcb, hca]
          exact Or.inl hab
        · exact hp.1 x hxt
      · exact ih (fun c hc => hl c (List.mem_cons_of_mem b hc))
          (fun c hc => hid c (List.mem_cons_of_mem b hc)) hp.2

theorem sortByConfidenceDesc_pairwise {l : List ThreatIntelIndicator}
    (hl : ∀ b ∈ l, b.confidence ≠ none)
    (hid : l.Pairwise (fun a b => a.id < b.id)) :
    (sortByConfidenceDesc l).Pairwise confidenceRank := by
  induction l with
  | nil => simp [sortByConfidenceDesc]
  | cons a t ih =>
    rw [List.pairwise_cons] at hid
    have hstep : sortByConfidenceDesc (a :: t) = orderedInsertDesc a (sortByConfidenceDesc t) := rfl
    rw [hstep]
    exact orderedInsertDesc_pairwise (hl a (List.mem_cons_self a t))
      (fun b hb => hl b (List.mem_cons_of_mem a ((sortByConfidenceDesc_perm t).mem_iff.mp hb)))
      (fun b hb => hid.1 b ((sortByConfidenceDesc_perm t).mem_iff.mp hb))
      (ih (fun b hb => hl b (List.mem_cons_of_mem a hb)) hid.2)

theorem mem_filter_fge_not_none {store : List ThreatIntelIndicator}
    {min : FloatVal} :
    ∀ i ∈ store.filter (fun i => fge i.confidence min), i.confidence ≠ none := by
  intro i hi
  have hfi := (List.mem_filter.mp hi).2
  cases h : i.confidence with
  | none => simp [fge, h] at hfi
  | some c => simp [h]

theorem hasNaN_filter_fge_false (store : List ThreatIntelIndicator)
    (min : FloatVal) :
    hasNaNConfidence (store.filter (fun i => fge i.confidence min)) = false := by
  rw [hasNaNConfidence, List.any_eq_false]
  intro i hi
  have := mem_filter_fge_not_none i hi
  cases h : i.confidence with
  | none => exact absurd h this
  | some c => simp [h]

theorem rank_eq_ok (store : List ThreatIntelIndicator) (min : FloatVal) :
    get_high_confidence_indicators store min =
      .ok (sortByConfidenceDesc (store.filter (fun i => fge i.confidence min))) := by
  rw [get_high_confidence_indicators]
  simp [hasNaN_filter_fge_false store min]

/-- C2: for every stored set of indicators and every threshold min,
rankByConfidence(min) returns exactly the indicators with confidence >= min,
sorted in strictly descending order of confidence, with equal-confidence
indicators ordered by id ascending.  The store hypothesis is the redb table
invariant: the snapshot iterates in ascending id order, and the Rust sort is
stable, which is what yields the id-ascending tie-break. -/
theorem rank_by_confidence_filters_and_sorts (store : List ThreatIntelIndicator)
    (m : ℚ) (hid : idSorted store) :
    ∃ l, get_high_confidence_indicators store (some m) = Except.ok l ∧
      l.Perm (store.filter (fun i => fge i.confidence (some m))) ∧
      l.Pairwise confidenceRank := by
  refine ⟨_, rank_eq_ok store (some m), sortByConfidenceDesc_perm _, ?_⟩
  exact sortByConfidenceDesc_pairwise mem_filter_fge_not_none
    (List.Pairwise.sublist (List.filter_sublist _) hid)

/-- Concrete indicator used by witnesses: only id, confidence and last_seen
vary, the remaining fields are fixed plausible values. -/
def mkIndicator (i : String) (c : FloatVal) (ls : ℤ) : ThreatIntelIndicator :=
  ⟨i, "ip", "203.0.113.7", c, some 0, 0, ls, [], [], [], false⟩

/-- Concrete id-sorted store with a confidence tie between ind-a and ind-c. -/
def rankWitnessStore : List ThreatIntelIndicator :=
  [mkIndicator "ind-a" (some 2) 0, mkIndicator "ind-b" (some 3) 0,
   mkIndicator "ind-c" (some 2) 0]

theorem rank_by_confidence_filters_and_sorts_witness :
    idSorted rankWitnessStore ∧
    (∃ l, get_high_confidence_indicators rankWitnessStore (some 2) = Except.ok l ∧
      l.Perm (rankWitnessStore.filter (fun i => fge i.confidence (some 2))) ∧
      l.Pairwise confidenceRank) := by
  have hid : idSorted rankWitnessStore := by
    simp [idSorted, rankWitnessStore, mkIndicator, List.pairwise_cons,
      String.lt_iff] <;> decide
  exact ⟨hid, rank_by_confidence_filters_and_sorts rankWitnessStore 2 hid⟩

/-- C3 (amended): rankByConfidence never faults at runtime: an indicator
with NaN confidence never satisfies the IEEE >= filter, so the sort never
compares a NaN and the unwrap in the comparator never panics; the NaN
indicators are silently excluded from the result, with no DataError. -/
theorem rank_by_confidence_never_faults (store : List ThreatIntelIndicator)
    (min : FloatVal) :
    ∃ l, get_high_confidence_indicators store min = Except.ok l ∧
      ∀ i ∈ l, i.confidence ≠ none := by
  refine ⟨_, rank_eq_ok store min, ?_⟩
  intro i hi
  exact mem_filter_fge_not_none i ((sortByConfidenceDesc_perm _).mem_iff.mp hi)

/-- C3 counterexample to the claim as stated: a stored indicator with NaN
confidence is not rejected or sanitized with a DataError report; the call
returns Ok with the NaN indicator silently dropped. -/
theorem rank_by_confidence_nan_no_data_error :
    get_high_confidence_indicators
      [mkIndicator "ind-nan" none 0, mkIndicator "ind-x" (some 1) 0] (some 0) =
      Except.ok [mkIndicator "ind-x" (some 1) 0] := by
  rfl

/-- Seconds in one day: chrono Duration::days(d) is d of these. -/
def secondsPerDay : ℤ := 86400

/-- cleanup_old_indicators (yara_rules_redb.rs, lines 272-306): inside one
write transaction, walk the table, collect the keys of all indicators whose
last_seen is strictly before now minus days_old days, remove those keys one
by one (counting each removal), commit, and return the count.  The result
is the table after the transaction together with the returned count. -/
def cleanup_old_indicators (store : List ThreatIntelIndicator)
    (now days_old : ℤ) : List ThreatIntelIndicator × Nat :=
  let cutoff_date : ℤ := now - days_old * secondsPerDay
  let keys_to_remove : List String :=
    (store.filter (fun i => decide (i.last_seen < cutoff_date))).map
      (fun i => i.id)
  (store.filter (fun i => !(keys_to_remove.contains i.id)),
   keys_to_remove.length)

theorem id_injective_of_idSorted {l : List ThreatIntelIndicator}
    (h : idSorted l) :
    ∀ i ∈ l, ∀ j ∈ l, i.id = j.id → i = j := by
  induction l with
  | nil => simp
  | cons a t ih =>
    rw [idSorted, List.pairwise_cons] at h
    intro i hi j hj heq
    rcases List.mem_cons.mp hi with rfl | hi' <;>
      rcases List.mem_cons.mp hj with rfl | hj'
    · rfl
    · exact absurd heq (h.1 j hj').ne
    · exact absurd heq (h.1 i hi').ne'
    · exact ih h.2 i hi' j hj' heq

theorem contains_remove_keys {store : List ThreatIntelIndicator}
    (hid : idSorted store) (c : ℤ) {i : ThreatIntelIndicator} (hi : i ∈ store) :
    ((store.filter (fun j => decide (j.last_seen < c))).map
        (fun j => j.id)).contains i.id = decide (i.last_seen < c) := by
  by_cases hlt : i.last_seen < c
  · simp only [hlt, decide_True]
    have : i.id ∈ (store.filter (fun j => decide (j.last_seen < c))).map
        (fun j => j.id) :=
      List.mem_map.mpr ⟨i, List.mem_filter.mpr ⟨hi, by simp [hlt]⟩, rfl⟩
    simpa [List.contains, List.elem_iff] using this
  · simp only [hlt, decide_False]
    rw [Bool.eq_false_iff]
    intro hcon
    have hmem : i.id ∈ (store.filter (fun j => decide (j.last_seen < c))).map
        (fun j => j.id) := by
      simpa [List.contains, List.elem_iff] using hcon
    obtain ⟨j, hjf, hjid⟩ := List.mem_map.mp hmem
    obtain ⟨hjs, hjlt⟩ := List.mem_filter.mp hjf
    have : j = i := id_injective_of_idSorted hid j hjs i hi hjid
    subst this
    exact hlt (by simpa using hjlt)

/-- C6: for every stored set of indicators and every d,
purgeIndicatorsOlderThan(d) removes, in one atomic transaction (modelled as
one state transition), exactly the indicators whose last_seen is strictly
before now minus d days, leaves every other indicator unchanged, returns
the number removed, and an immediately repeated call removes 0. -/
theorem cleanup_old_indicators_spec (store : List ThreatIntelIndicator)
    (now days_old : ℤ) (hid : idSorted store) :
    (cleanup_old_indicators store now days_old).1 =
      store.filter
        (fun i => !(decide (i.last_seen < now - days_old * secondsPerDay))) ∧
    (cleanup_old_indicators store now days_old).2 =
      (store.filter
        (fun i => decide (i.last_seen < now - days_old * secondsPerDay))).length ∧
    cleanup_old_indicators (cleanup_old_indicators store now days_old).1
        now days_old =
      ((cleanup_old_indicators store now days_old).1, 0) := by
  have h1 : (cleanup_old_indicators store now days_old).1 =
      store.filter
        (fun i => !(decide (i.last_seen < now - days_old * secondsPerDay))) := by
    rw [cleanup_old_indicators]
    refine List.filter_congr ?_
    intro i hi
    rw [contains_remove_keys hid _ hi]
  have h2 : (cleanup_old_indicators store now days_old).2 =
      (store.filter
        (fun i => decide (i.last_seen < now - days_old * secondsPerDay))).length := by
    rw [cleanup_old_indicators]
    exact List.length_map _ _
  refine ⟨h1, h2, ?_⟩
  have hempt : ((cleanup_old_indicators store now days_old).1).filter
      (fun i => decide (i.last_seen < now - days_old * secondsPerDay)) = [] := by
    rw [h1, List.filter_filter]
    have : ∀ i ∈ store,
        (decide (i.last_seen < now - days_old * secondsPerDay) &&
          !(decide (i.last_seen < now - days_old * secondsPerDay))) = false := by
      intro i _
      cases hdec : decide (i.last_seen < now - days_old * secondsPerDay) <;> simp
    rw [List.filter_congr this]
    exact List.filter_false _
  rw [cleanup_old_indicators, hempt]
  simp [List.contains]

/-- Concrete id-sorted store with last_seen at day 0, day -10 and day -40
relative to now = 0. -/
def purgeWitnessStore : List ThreatIntelIndicator :=
  [mkIndicator "ind-a" (some 1) 0,
   mkIndicator "ind-b" (some 1) (-864000),
   mkIndicator "ind-c" (some 1) (-3456000)]

theorem cleanup_old_indicators_spec_witness :
    idSorted purgeWitnessStore ∧
    ((cleanup_old_indicators purgeWitnessStore 0 30).1 =
      purgeWitnessStore.filter
        (fun i => !(decide (i.last_seen < 0 - 30 * secondsPerDay))) ∧
    (cleanup_old_indicators purgeWitnessStore 0 30).2 =
      (purgeWitnessStore.filter
        (fun i => decide (i.last_seen < 0 - 30 * secondsPerDay))).length ∧
    cleanup_old_indicators (cleanup_old_indicators purgeWitnessStore 0 30).1
        0 30 =
      ((cleanup_old_indicators purgeWitnessStore 0 30).1, 0)) := by
  have hid : idSorted purgeWitnessStore := by
    simp [idSorted, purgeWitnessStore, mkIndicator, List.pairwise_cons,
      String.lt_iff] <;> decide
  exact ⟨hid, cleanup_old_indicators_spec purgeWitnessStore 0 30 hid⟩

/-- Outcomes of the external collaborators and configuration of one run of
execute_scan_with_options (executor.rs, lines 24-74): whether ReDB
optimization was requested and whether its initialization succeeds, and
whether each successive stage succeeds.  uploadConfigured is whether
config.pyro.api_key is set; cleanupConfigured is config.scanning.cleanup. -/
structure ExecEnv where
  redbRequested : Bool
  redbOk : Bool
  prepareOk : Bool
  acquireOk : Bool
  extractOk : Bool
  scanOk : Bool
  uploadConfigured : Bool
  uploadOk : Bool
  cleanupConfigured : Bool
deriving DecidableEq

/-- State of the run's working directory: whether the scanner currently
owns a live TempDir, and how many times a directory was created and
destroyed on disk. -/
structure WorkdirState where
  tempDir : Bool
  created : Nat
  destroyed : Nat
deriving DecidableEq

/-- Dropping the scanner's TempDir handle (tempfile::TempDir deletes the
directory from disk when dropped): a destruction event if and only if a
live handle is held. -/
def dropTempDir (s : WorkdirState) : WorkdirState :=
  if s.tempDir then { s with tempDir := false, destroyed := s.destroyed + 1 }
  else s

/-- Stage errors of the run, one per early-return site of
execute_scan_with_options. -/
inductive ScanStageError where
  | redbInitError
  | prepareError
  | acquisitionError
  | extractionError
  | executionError
  | uploadError
deriving DecidableEq

/-- execute_scan_with_options (executor.rs, lines 24-74).  The scanner is a
local of the function, so on every exit path, early return included, it is
dropped and with it any live TempDir (Rust drop semantics); cleanup()
(scanner.rs, lines 204-224) merely sets temp_dir to None, dropping the
TempDir early, and runs only when config.scanning.cleanup is set.
prepare_environment (scanner.rs, lines 47-66) is the only creation site of
the temporary directory. -/
def execute_scan_with_options (e : ExecEnv) :
    Except ScanStageError Unit × WorkdirState :=
  let s0 : WorkdirState := ⟨false, 0, 0⟩
  if e.redbRequested && !e.redbOk then (.error .redbInitError, dropTempDir s0)
  else if !e.prepareOk then (.error .prepareError, dropTempDir s0)
  else
    let s1 : WorkdirState := ⟨true, 1, 0⟩
    if !e.acquireOk then (.error .acquisitionError, dropTempDir s1)
    else if !e.extractOk then (.error .extractionError, dropTempDir s1)
    else if !e.scanOk then (.error .executionError, dropTempDir s1)
    else if e.uploadConfigured && !e.uploadOk then
      (.error .uploadError, dropTempDir s1)
    else
      let s2 := if e.cleanupConfigured then dropTempDir s1 else s1
      (.ok (), dropTempDir s2)

/-- C1: for every run in which the Prepare stage succeeded (so the working
directory was created), the working directory is destroyed exactly once
before the run returns, whichever later stage fails: either cleanup() drops
the TempDir, or the drop of the scanner local does on the way out. -/
theorem execute_scan_workdir_destroyed_exactly_once (e : ExecEnv)
    (hprep : e.prepareOk = true)
    (hredb : e.redbRequested = true → e.redbOk = true) :
    (execute_scan_with_options e).2.created = 1 ∧
    (execute_scan_with_options e).2.destroyed = 1 := by
  obtain ⟨r1, r2, p, aq, ex, sc, uc, uo, cc⟩ := e
  revert hprep hredb
  revert r1 r2 p aq ex sc uc uo cc
  decide

theorem execute_scan_workdir_destroyed_exactly_once_witness :
    ((⟨false, false, true, true, false, true, false, true, true⟩ :
        ExecEnv).prepareOk = true) ∧
    ((execute_scan_with_options
        ⟨false, false, true, true, false, true, false, true, true⟩).2.created = 1 ∧
     (execute_scan_with_options
        ⟨false, false, true, true, false, true, false, true, true⟩).2.destroyed = 1) :=
  ⟨rfl, execute_scan_workdir_destroyed_exactly_once
    ⟨false, false, true, true, false, true, false, true, true⟩ rfl
    (fun h => by cases h)⟩

/-- Argument list composed by run_scan (scanner.rs, lines 134-156): the
configured base flags, then, only in enterprise mode, the enterprise flags
followed (only when the ReDB store hook is attached) by the optimization
flag, then the scan path and the rebase directory. -/
def build_scan_args (flags : List String) (enterprise_mode redb_attached : Bool)
    (scan_path temp_path : String) : List String :=
  flags ++
    (if enterprise_mode then
      ["--enterprise-mode", "--ai-enhanced"] ++
        (if redb_attached then ["--redb-optimized"] else [])
    else []) ++
    ["--path", scan_path, "--rebase-dir", temp_path]

/-- C5 counterexample to the claim as stated: with base flags ["--a"],
enterprise mode on, store attached, scan path P and workdir W the composed
list is not the claimed one: the optimization flag the code passes is
spelled --redb-optimized, not --store-optimized. -/
theorem build_scan_args_claimed_list_mismatch :
    build_scan_args ["--a"] true true "P" "W" ≠
      ["--a", "--enterprise-mode", "--ai-enhanced", "--store-optimized",
       "--path", "P", "--rebase-dir", "W"] := by
  decide

/-- C5 (amended): with base flags ["--a"], enterprise mode on and a store
attached the composed list is ["--a", "--enterprise-mode", "--ai-enhanced",
"--redb-optimized", "--path", P, "--rebase-dir", W]; in general the
optimization flag is included exactly when enterprise mode is on and a
store is attached (a store attached outside enterprise mode adds no flag). -/
theorem build_scan_args_amended (flags : List String) (P W : String)
    (h1 : "--redb-optimized" ∉ flags) (h2 : P ≠ "--redb-optimized")
    (h3 : W ≠ "--redb-optimized") :
    build_scan_args ["--a"] true true P W =
      ["--a", "--enterprise-mode", "--ai-enhanced", "--redb-optimized",
       "--path", P, "--rebase-dir", W] ∧
    (∀ ent att : Bool,
      ("--redb-optimized" ∈ build_scan_args flags ent att P W ↔
        ent = true ∧ att = true)) := by
  refine ⟨rfl, ?_⟩
  intro ent att
  cases ent <;> cases att <;>
    simp [build_scan_args, h1, Ne.symm h2, Ne.symm h3]

theorem build_scan_args_amended_witness :
    ("--redb-optimized" ∉ ["--utc", "--json"]) ∧
    (build_scan_args ["--a"] true true "P" "W" =
      ["--a", "--enterprise-mode", "--ai-enhanced", "--redb-optimized",
       "--path", "P", "--rebase-dir", "W"] ∧
    (∀ ent att : Bool,
      ("--redb-optimized" ∈ build_scan_args ["--utc", "--json"] ent att "P" "W" ↔
        ent = true ∧ att = true))) :=
  ⟨by decide, build_scan_args_amended ["--utc", "--json"] "P" "W" (by decide)
    (by decide) (by decide)⟩

/-- Captured output of the launched child process. -/
structure ChildOutput where
  exitSuccess : Bool
  stdoutText : String
  stderrText : String
deriving DecidableEq

/-- Failure modes of run_scan (scanner.rs, lines 115-202), one per
early-return site; thorScanFailed carries the captured stderr text, which
the source embeds in the error message verbatim. -/
inductive RunScanError where
  | tempDirNotInitialized
  | thorBinaryNotFound
  | launchFailed
  | thorScanFailed (stderrText : String)
  | resultFormatError
  | writeResultsFailed
deriving DecidableEq

/-- run_scan (scanner.rs, lines 115-202), parametric in the structured
report type J and the report parser (serde_json::from_str in the source).
Inputs are the outcomes of the external calls: whether the temp dir was
initialized, whether the Thor binary exists in it, whether spawning the
child worked, the child's captured output, and whether the result file
write succeeds.  The second component lists the (path, content) filesystem
writes the call performed. -/
def run_scan {J : Type} (tempDirInitialized binaryExists launchOk : Bool)
    (child : ChildOutput) (parseReport : String → Option J) (writeOk : Bool)
    (output_path : String) :
    Except RunScanError J × List (String × String) :=
  if !tempDirInitialized then (.error .tempDirNotInitialized, [])
  else if !binaryExists then (.error .thorBinaryNotFound, [])
  else if !launchOk then (.error .launchFailed, [])
  else if !child.exitSuccess then
    (.error (.thorScanFailed child.stderrText), [])
  else
    match parseReport child.stdoutText with
    | none => (.error .resultFormatError, [])
    | some v =>
      if writeOk then (.ok v, [(output_path, child.stdoutText)])
      else (.error .writeResultsFailed, [])

/-- C8: for every run reaching the Execute stage, a child that exits with a
non-zero status makes the run fail with the execution error carrying the
captured stderr text, and a child that exits successfully but whose stdout
does not parse as one structured report makes it fail with the result
format error. -/
theorem run_scan_failure_contract {J : Type}
    (tempDirInitialized binaryExists launchOk : Bool) (child : ChildOutput)
    (parseReport : String → Option J) (writeOk : Bool) (output_path : String)
    (hT : tempDirInitialized = true) (hB : binaryExists = true)
    (hL : launchOk = true) :
    (child.exitSuccess = false →
      (run_scan tempDirInitialized binaryExists launchOk child parseReport
        writeOk output_path).1 =
        .error (.thorScanFailed child.stderrText)) ∧
    (child.exitSuccess = true → parseReport child.stdoutText = none →
      (run_scan tempDirInitialized binaryExists launchOk child parseReport
        writeOk output_path).1 = .error .resultFormatError) := by
  subst hT hB hL
  constructor
  · intro hf
    simp [run_scan, hf]
  · intro hs hp
    simp [run_scan, hs, hp]

theorem run_scan_failure_contract_witness :
    (true = true ∧ true = true ∧ true = true) ∧
    (((⟨false, "", "boom"⟩ : ChildOutput).exitSuccess = false →
      (run_scan true true true ⟨false, "", "boom"⟩
        (fun s => if s = "{}" then some 0 else none) true "out.json").1 =
        .error (.thorScanFailed (⟨false, "", "boom"⟩ : ChildOutput).stderrText)) ∧
    ((⟨false, "", "boom"⟩ : ChildOutput).exitSuccess = true →
      (fun s => if s = "{}" then some 0 else (none : Option ℕ)) "" = none →
      (run_scan true true true ⟨false, "", "boom"⟩
        (fun s => if s = "{}" then some 0 else none) true "out.json").1 =
        .error .resultFormatError)) :=
  ⟨⟨rfl, rfl, rfl⟩, run_scan_failure_contract true true true ⟨false, "", "boom"⟩
    (fun s => if s = "{}" then some 0 else none) true "out.json" rfl rfl rfl⟩

/-- C9: when the child exits successfully but its stdout does not parse as
a structured report, run_scan performs no filesystem write: the output file
is written, with the verbatim stdout text, only after parsing succeeds. -/
theorem run_scan_write_only_after_parse {J : Type}
    (tempDirInitialized binaryExists launchOk : Bool) (child : ChildOutput)
    (parseReport : String → Option J) (writeOk : Bool) (output_path : String)
    (hT : tempDirInitialized = true) (hB : binaryExists = true)
    (hL : launchOk = true) (hS : child.exitSuccess = true) :
    (parseReport child.stdoutText = none →
      (run_scan tempDirInitialized binaryExists launchOk child parseReport
        writeOk output_path).2 = [] ∧
      (run_scan tempDirInitialized binaryExists launchOk child parseReport
        writeOk output_path).1 = .error .resultFormatError) ∧
    (∀ v, parseReport child.stdoutText = some v → writeOk = true →
      (run_scan tempDirInitialized binaryExists launchOk child parseReport
        writeOk output_path).2 = [(output_path, child.stdoutText)]) := by
  subst hT hB hL
  constructor
  · intro hp
    constructor <;> simp [run_scan, hS, hp]
  · intro v hp hw
    simp [run_scan, hS, hp, hw]

theorem run_scan_write_only_after_parse_witness :
    ((⟨true, "not json", ""⟩ : ChildOutput).exitSuccess = true) ∧
    (((fun s => if s = "{}" then some 0 else (none : Option ℕ)) "not json" = none →
      (run_scan true true true ⟨true, "not json", ""⟩
        (fun s => if s = "{}" then some 0 else none) true "out.json").2 = [] ∧
      (run_scan true true true ⟨true, "not json", ""⟩
        (fun s => if s = "{}" then some 0 else none) true "out.json").1 =
        .error .resultFormatError) ∧
    (∀ v, (fun s => if s = "{}" then some 0 else (none : Option ℕ)) "not json" = some v →
      true = true →
      (run_scan true true true ⟨true, "not json", ""⟩
        (fun s => if s = "{}" then some 0 else none) true "out.json").2 =
        [("out.json", "not json")])) :=
  ⟨rfl, run_scan_write_only_after_parse true true true ⟨true, "not json", ""⟩
    (fun s => if s = "{}" then some 0 else none) true "out.json" rfl rfl rfl rfl⟩

/-- The well-known local path of the scanner package (executor.rs, line 78). -/
def localThorPackage : String := "Custom.DFIR.Yara.AllRules.zip"

/-- Outcome of the HTTP download of the package: a transport failure, or a
response with its status and body bytes. -/
inductive DownloadOutcome where
  | transportError
  | response (statusSuccess : Bool) (bytes : String)
deriving DecidableEq

/-- Failure modes of ensure_thor_package (executor.rs, lines 76-119). -/
inductive AcquisitionError where
  | downloadFailed
  | httpStatusNotSuccess
  | saveFailed
deriving DecidableEq

/-- ensure_thor_package (executor.rs, lines 76-119): if the package file
already exists locally, reuse it without downloading; otherwise download,
fail on transport error or a non-success HTTP status, write the bytes to
the well-known local path, and return that path.  The local filesystem is a
path-keyed table of file contents; the result carries the path, the
filesystem after the call, and whether a download was performed. -/
def ensure_thor_package (fs : List (String × String)) (dl : DownloadOutcome)
    (writeOk : Bool) :
    Except AcquisitionError (String × List (String × String) × Bool) :=
  match tableGet fs localThorPackage with
  | some _ => .ok (localThorPackage, fs, false)
  | none =>
    match dl with
    | .transportError => .error .downloadFailed
    | .response ok bytes =>
      if !ok then .error .httpStatusNotSuccess
      else if writeOk then
        .ok (localThorPackage, tableInsert fs localThorPackage bytes, true)
      else .error .saveFailed

/-- C10: when the package is absent locally and the remote download
succeeds, ensure_thor_package writes the downloaded bytes to the well-known
local path before returning, and every subsequent call on the resulting
filesystem reuses the file there without downloading again. -/
theorem ensure_thor_package_downloads_and_caches
    (fs : List (String × String)) (dl : DownloadOutcome) (writeOk : Bool)
    (bytes : String) (habsent : tableGet fs localThorPackage = none)
    (hdl : dl = .response true bytes) (hw : writeOk = true) :
    ∃ fs', ensure_thor_package fs dl writeOk = .ok (localThorPackage, fs', true) ∧
      tableGet fs' localThorPackage = some bytes ∧
      ∀ dl' w', ensure_thor_package fs' dl' w' = .ok (localThorPackage, fs', false) := by
  subst hdl hw
  refine ⟨tableInsert fs localThorPackage bytes, ?_, ?_, ?_⟩
  · simp [ensure_thor_package, habsent]
  · exact tableGet_tableInsert_self fs localThorPackage bytes
  · intro dl' w'
    simp [ensure_thor_package, tableGet_tableInsert_self fs localThorPackage bytes]

theorem ensure_thor_package_downloads_and_caches_witness :
    (tableGet ([] : List (String × String)) localThorPackage = none) ∧
    (∃ fs', ensure_thor_package [] (.response true "ZIPBYTES") true =
        .ok (localThorPackage, fs', true) ∧
      tableGet fs' localThorPackage = some "ZIPBYTES" ∧
      ∀ dl' w', ensure_thor_package fs' dl' w' =
        .ok (localThorPackage, fs', false)) :=
  ⟨rfl, ensure_thor_package_downloads_and_caches [] (.response true "ZIPBYTES")
    true "ZIPBYTES" rfl rfl rfl⟩

/-- One entry of the rules directory listing: its full path, its file stem,
its extension, and the outcome of reading it as text. -/
structure DirEntry where
  path : String
  stem : String
  extension : Option String
  readResult : Except String String

/-- File-extension check of sync_yara_rules_from_directory
(yara_rules_redb.rs, lines 358-359). -/
def isYaraFile (e : DirEntry) : Bool :=
  decide (e.extension = some "yar") || decide (e.extension = some "yara")

/-- The rule synthesized for an imported file (yara_rules_redb.rs, lines
364-384): fresh id, stem as name, fixed defaults, md5 content hash, file
path as source. -/
def mkImportedRule (newId : String) (e : DirEntry) (content : String)
    (now : ℤ) (md5Hex : String → String) : YaraRule :=
  { id := newId, name := e.stem, content := content,
    author := "Auto-imported",
    description := "Imported from " ++ e.path,
    tags := ["auto-imported"], severity := "medium",
    created_at := now, updated_at := now, version := "1.0",
    hash := md5Hex content, source := e.path,
    mitre_tactics := [], mitre_techniques := [], threat_actors := [],
    malware_families := [] }

/-- The per-entry loop of sync_yara_rules_from_directory (yara_rules_redb.rs,
lines 355-389): skip entries without a yar/yara extension; read each
matching file, aborting the whole sync on a read failure (the source
propagates it with the question-mark operator); otherwise synthesize a rule,
store it, and bump the count.  freshId models uuid::Uuid::new_v4 (one fresh
id per imported file), now models chrono::Utc::now, md5Hex the md5 digest. -/
def syncEntries (freshId : Nat → String) (now : ℤ) (md5Hex : String → String) :
    List DirEntry → RulesTable → Nat → RulesTable × Except String Nat
  | [], t, n => (t, .ok n)
  | e :: rest, t, n =>
    if isYaraFile e then
      match e.readResult with
      | .error msg => (t, .error ("Failed to read YARA rule file: " ++ msg))
      | .ok content =>
        syncEntries freshId now md5Hex rest
          (store_yara_rule t (mkImportedRule (freshId n) e content now md5Hex))
          (n + 1)
    else syncEntries freshId now md5Hex rest t n

/-- sync_yara_rules_from_directory (yara_rules_redb.rs, lines 347-393): fail
when the directory cannot be listed, otherwise run the per-entry loop over
the listing starting from the given table. -/
def sync_yara_rules_from_directory (freshId : Nat → String) (now : ℤ)
    (md5Hex : String → String) (listing : Except String (List DirEntry))
    (t : RulesTable) : RulesTable × Except String Nat :=
  match listing with
  | .error e => (t, .error ("Failed to read rules directory: " ++ e))
  | .ok entries => syncEntries freshId now md5Hex entries t 0

theorem syncEntries_all_reads_ok (freshId : Nat → String) (now : ℤ)
    (md5Hex : String → String) (entries : List DirEntry) :
    ∀ (t : RulesTable) (n : Nat),
      (∀ e ∈ entries, isYaraFile e = true → ∃ c, e.readResult = Except.ok c) →
      ∃ t', syncEntries freshId now md5Hex entries t n =
        (t', Except.ok (n + entries.countP isYaraFile)) := by
  induction entries with
  | nil => intro t n _; exact ⟨t, by simp [syncEntries]⟩
  | cons e rest ih =>
    intro t n h
    by_cases hy : isYaraFile e
    · obtain ⟨c, hc⟩ := h e (List.mem_cons_self e rest) hy
      obtain ⟨t', ht'⟩ := ih
        (store_yara_rule t (mkImportedRule (freshId n) e c now md5Hex)) (n + 1)
        (fun x hx => h x (List.mem_cons_of_mem e hx))
      refine ⟨t', ?_⟩
      have hcount : n + 1 + rest.countP isYaraFile =
          n + (e :: rest).countP isYaraFile := by
        rw [List.countP_cons, if_pos hy]
        omega
      rw [syncEntries, if_pos hy, hc]
      show syncEntries freshId now md5Hex rest
          (store_yara_rule t (mkImportedRule (freshId n) e c now md5Hex))
          (n + 1) = _
      rw [ht', hcount]
    · have hyf : isYaraFile e = false := by
        cases hb : isYaraFile e
        · rfl
        · exact absurd hb hy
      obtain ⟨t', ht'⟩ := ih t n (fun x hx => h x (List.mem_cons_of_mem e hx))
      refine ⟨t', ?_⟩
      rw [syncEntries, if_neg hy, List.countP_cons]
      simpa [hyf] using ht'

/-- C4 counterexample to the claim as stated: the directory listing
succeeds and holds a matching file whose read fails followed by a matching
file whose read succeeds, yet the call returns an error instead of logging,
skipping, and returning a count of 1; the second file is not imported. -/
theorem sync_aborts_on_file_read_error :
    sync_yara_rules_from_directory (fun _ => "id-0") 0 (fun _ => "d41d8cd9")
      (Except.ok
        [⟨"rules/a.yar", "a", some "yar", Except.error "io error"⟩,
         ⟨"rules/b.yar", "b", some "yar", Except.ok "rule b {}"⟩])
      [] =
      ([], Except.error "Failed to read YARA rule file: io error") := by
  rfl

/-- C4 (amended): syncFromDirectory fails when the directory cannot be
listed, and also aborts with an error on the first matching rule file whose
read fails (per-file failures are not skipped); when every matching file
reads successfully, it returns the count of matching files imported. -/
theorem sync_from_directory_contract (freshId : Nat → String) (now : ℤ)
    (md5Hex : String → String) :
    (∀ msg (t : RulesTable),
      sync_yara_rules_from_directory freshId now md5Hex (Except.error msg) t =
        (t, Except.error ("Failed to read rules directory: " ++ msg))) ∧
    (∀ (entries : List DirEntry) (t : RulesTable),
      (∀ e ∈ entries, isYaraFile e = true → ∃ c, e.readResult = Except.ok c) →
      ∃ t', sync_yara_rules_from_directory freshId now md5Hex
          (Except.ok entries) t = (t', Except.ok (entries.countP isYaraFile))) := by
  constructor
  · intro msg t
    rfl
  · intro entries t h
    obtain ⟨t', ht'⟩ := syncEntries_all_reads_ok freshId now md5Hex entries t 0 h
    exact ⟨t', by simpa [sync_yara_rules_from_directory] using ht'⟩

theorem sync_from_directory_contract_witness :
    (sync_yara_rules_from_directory (fun _ => "id-0") 0 (fun _ => "d41d8cd9")
      (Except.error "permission denied") [] =
      ([], Except.error "Failed to read rules directory: permission denied")) ∧
    (∃ t', sync_yara_rules_from_directory (fun _ => "id-0") 0 (fun _ => "d41d8cd9")
      (Except.ok
        [⟨"rules/b.yar", "b", some "yar", Except.ok "rule b {}"⟩,
         ⟨"notes/readme.txt", "readme", some "txt", Except.error "io error"⟩])
      [] = (t', Except.ok 1)) := by
  constructor
  · exact (sync_from_directory_contract (fun _ => "id-0") 0
      (fun _ => "d41d8cd9")).1 "permission denied" []
  · have h : ∀ e ∈ [(⟨"rules/b.yar", "b", some "yar", Except.ok "rule b {}"⟩ : DirEntry),
        ⟨"notes/readme.txt", "readme", some "txt", Except.error "io error"⟩],
        isYaraFile e = true → ∃ c, e.readResult = Except.ok c := by
      intro e he hy
      rcases List.mem_cons.mp he with rfl | he'
      · exact ⟨"rule b {}", rfl⟩
      · rcases List.mem_cons.mp he' with rfl | he''
        · exact absurd hy (by decide)
        · cases he''
    have := (sync_from_directory_contract (fun _ => "id-0") 0
      (fun _ => "d41d8cd9")).2
      [⟨"rules/b.yar", "b", some "yar", Except.ok "rule b {}"⟩,
       ⟨"notes/readme.txt", "readme", some "txt", Except.error "io error"⟩] [] h
    simpa using this
